import Mathlib

/-!
# Verification of the crev file-selection engine

This file is a shallow embedding, in Lean 4, of the file-selection engine of
the `crev` command-line tool (package `internal/files`, file `reading.go`,
the final variant: the one whose `GetAllFilePaths` composes
`preprocessExcludePatterns`, `collectExplicitFiles`, `walkAndCollectPaths`
and `filterEmptyDirectories`).

Modelling conventions:

* Absolute filesystem paths are lists of path segments (`List String`),
  with an implicit leading `/`; `filepath.Dir` is `List.dropLast`,
  `strings.HasPrefix(e, d + "/")` is "`d` is a strict segment-prefix of `e`".
* The filesystem visible to one call is a `FileSystem` value: the absolute
  path of the walked root, a flat list of entries under the root (relative
  segment path ↦ kind, listed in the depth-first lexical order in which
  `filepath.WalkDir` enumerates them), and a list of paths existing outside
  the root (absolute path ↦ isDirectory).  Symbolic links are modelled:
  `os.Stat` follows them, `filepath.WalkDir` does not (it reports them as
  non-directory entries and never descends through them).
* `filepath.Abs` is the identity: all path inputs are modelled as already
  absolute and clean, matching the tests, which always pass absolute paths.
* The glob matcher `doublestar.PathMatch` is an external dependency of the
  repository (github.com/bmatcuk/doublestar/v4); it is modelled from its
  documented semantics: patterns and names are split on `/`; a `**` segment
  matches any number of path segments including none; within one segment
  `*` matches any run of characters, `?` one character, `[...]` character
  classes with ranges and `!`/`^` negation, `\` escapes the next character.
  A malformed pattern (for which Go reports `ErrBadPattern`) is modelled as
  matching nothing.
-/

/-! ## Path segments and strings -/

/-- Splits a character list on `/`, keeping empty fragments, accumulating the
current (reversed) fragment; mirrors `strings.Split(s, "/")`. -/
def splitCharsSlash : List Char → List Char → List String
  | [], cur => [String.mk cur.reverse]
  | '/' :: rest, cur => String.mk cur.reverse :: splitCharsSlash rest []
  | c :: rest, cur => splitCharsSlash rest (c :: cur)

/-- Splits a string on `/` (as `strings.Split` / the segment split performed
by `doublestar.PathMatch`). -/
def splitOnSlash (s : String) : List String :=
  splitCharsSlash s.data []

/-- Joins path segments with `/`; inverse of the split for well-formed
segment lists.  Used where the Go code manipulates the `/`-joined relative
path string. -/
def joinSlash : List String → String
  | [] => ""
  | [s] => s
  | s :: rest => s ++ "/" ++ joinSlash rest

/-- A path-separator character as trimmed by
`strings.TrimRight(pattern, "/\\")`. -/
def isPathSep (c : Char) : Bool :=
  c == '/' || c == '\\'

/-- `strings.TrimRight(s, "/\\")`: removes every trailing `/` or `\`. -/
def trimTrailingSeps (s : String) : String :=
  String.mk (s.data.reverse.dropWhile isPathSep).reverse

/-- One step of `filepath.Clean` segment processing: empty and `.` segments
vanish, `..` pops the last segment (stopping at the root), anything else is
appended. -/
def cleanSegsStep (acc : List String) (seg : String) : List String :=
  if seg = "" || seg = "." then acc
  else if seg = ".." then acc.dropLast
  else acc ++ [seg]

/-- `filepath.Join(root, p)` for an absolute `root` given as segments:
splits `p` on `/` and cleans the concatenation. -/
def joinPath (root : List String) (p : String) : List String :=
  (splitOnSlash p).foldl cleanSegsStep root

/-! ## The doublestar glob matcher (modelled external dependency) -/

/-- Parses the items of a character class after `[` (and after an optional
negation marker): returns the list of closed ranges and the remaining
pattern after the closing `]`; `none` on an unterminated class
(`doublestar.ErrBadPattern`). -/
def parseClass : List Char → List (Char × Char) → Option (List (Char × Char) × List Char)
  | [], _ => none
  | ']' :: rest, acc => some (acc, rest)
  | c :: '-' :: ']' :: rest, acc => some (acc ++ [(c, c), ('-', '-')], rest)
  | c :: '-' :: d :: rest, acc => parseClass rest (acc ++ [(c, d)])
  | c :: rest, acc => parseClass rest (acc ++ [(c, c)])

/-- Parses a full character class body (after the opening `[`), handling the
optional `!`/`^` negation marker. -/
def parseClassStart : List Char → Option (Bool × List (Char × Char) × List Char)
  | '!' :: r =>
    match parseClass r [] with
    | none => none
    | some (items, rest) => some (true, items, rest)
  | '^' :: r =>
    match parseClass r [] with
    | none => none
    | some (items, rest) => some (true, items, rest)
  | r =>
    match parseClass r [] with
    | none => none
    | some (items, rest) => some (false, items, rest)

/-- Does character `c` fall in one of the class ranges? -/
def inClassB (items : List (Char × Char)) (c : Char) : Bool :=
  items.any (fun r => decide (r.1 ≤ c) && decide (c ≤ r.2))

/-- Glob match of one pattern segment against one name segment, on character
lists.  The fuel is structural bookkeeping only: every step consumes at
least one pattern character, so `fuel = pattern.length` never runs out. -/
def matchCharsGo : Nat → List Char → List Char → Bool
  | 0, ps, cs => ps.isEmpty && cs.isEmpty
  | fuel + 1, ps, cs =>
    match ps with
    | [] => cs.isEmpty
    | '*' :: ps2 => cs.tails.any (fun t => matchCharsGo fuel ps2 t)
    | '?' :: ps2 =>
      (match cs with
       | [] => false
       | _ :: t => matchCharsGo fuel ps2 t)
    | '[' :: ps2 =>
      (match parseClassStart ps2, cs with
       | some (neg, items, rest), c :: t =>
         (inClassB items c != neg) && matchCharsGo fuel rest t
       | _, _ => false)
    | '\\' :: ps2 =>
      (match ps2, cs with
       | e :: ps3, c :: t => (c == e) && matchCharsGo fuel ps3 t
       | _, _ => false)
    | p :: ps2 =>
      (match cs with
       | [] => false
       | c :: t => (c == p) && matchCharsGo fuel ps2 t)

/-- Glob match of one pattern segment against one name segment. -/
def matchSeg (p s : String) : Bool :=
  matchCharsGo p.data.length p.data s.data

/-- Segment-wise glob match: a `**` pattern segment matches any number of
name segments (including none), any other pattern segment must match
exactly one name segment. -/
def matchSegs : List String → List String → Bool
  | [], segs => segs.isEmpty
  | p :: ps, segs =>
    if p = "**" then segs.tails.any (fun t => matchSegs ps t)
    else
      match segs with
      | [] => false
      | s :: t => matchSeg p s && matchSegs ps t

/-- `doublestar.PathMatch(pattern, name)`: split both on `/` and match
segment-wise. -/
def pathMatch (pattern name : String) : Bool :=
  matchSegs (splitOnSlash pattern) (splitOnSlash name)

/-! ## The filesystem model -/

/-- Kind of a directory entry: regular file, directory, or symbolic link
(with its absolute target path). -/
inductive FSKind where
  | file
  | dir
  | symlink (target : List String)

/-- `fs.DirEntry.IsDir()`: true only for genuine directories; a symbolic
link reports false, and `filepath.WalkDir` never descends through it. -/
def FSKind.isDir : FSKind → Bool
  | FSKind.dir => true
  | _ => false

/-- The filesystem state visible to one `GetAllFilePaths` call. -/
structure FileSystem where
  /-- Absolute path of the walked root directory (result of
  `filepath.Abs(root)`), as segments. -/
  rootPath : List String
  /-- Entries under the root: relative segment path (nonempty) ↦ kind, in
  depth-first lexical order (the order `filepath.WalkDir` produces). -/
  tree : List (List String × FSKind)
  /-- Paths that exist outside the root tree: absolute path ↦ isDirectory.
  Needed because explicit files may live anywhere. -/
  outside : List (List String × Bool)

/-- Kind of the entry at relative path `rel` under the root, if present
(does not follow symlinks: the lstat view used by the directory walk). -/
def lookupKind (fs : FileSystem) (rel : List String) : Option FSKind :=
  (fs.tree.find? (fun e => e.1 == rel)).map (fun e => e.2)

/-- Follows the segments `todo` below the already-resolved relative
directory `done`; stops at the first symbolic-link component and returns the
rewritten absolute path, or resolves to the final (canonical absolute path,
isDirectory) on success, or `none` when a component is missing or a file is
used as a directory. -/
def resolveStep (fs : FileSystem) (done : List String) :
    List String → Sum (Option (List String × Bool)) (List String)
  | [] => Sum.inl (some (fs.rootPath ++ done, true))
  | s :: rest =>
    match lookupKind fs (done ++ [s]) with
    | none => Sum.inl none
    | some FSKind.file =>
      Sum.inl (if rest.isEmpty then some (fs.rootPath ++ done ++ [s], false) else none)
    | some FSKind.dir => resolveStep fs (done ++ [s]) rest
    | some (FSKind.symlink target) => Sum.inr (target ++ rest)

/-- Resolves an absolute path, following symbolic links (each link jump
consumes one unit of fuel, so link cycles fail like `ELOOP` does); returns
the canonical absolute path and whether it is a directory. -/
def resolvePathAux (fs : FileSystem) : Nat → List String → Option (List String × Bool)
  | 0, _ => none
  | fuel + 1, p =>
    if p = fs.rootPath then some (p, true)
    else if fs.rootPath.isPrefixOf p then
      match resolveStep fs [] (p.drop fs.rootPath.length) with
      | Sum.inl r => r
      | Sum.inr p2 => resolvePathAux fs fuel p2
    else
      match fs.outside.find? (fun e => e.1 == p) with
      | some e => some (p, e.2)
      | none => none

/-- Link-following resolution depth, as the kernel's symlink limit. -/
def statFuel : Nat := 40

/-- `os.Stat(p)` for an absolute path `p`: `none` when the path does not
exist (or a link cycle errors), otherwise `some isDirectory`. -/
def statAbs (fs : FileSystem) (p : List String) : Option Bool :=
  (resolvePathAux fs statFuel p).map (fun r => r.2)

/-- `filepath.EvalSymlinks(p)`: the canonical, symlink-free spelling of an
absolute path (an observer used to state claims about symlink resolution;
the selection engine under study never calls it). -/
def evalSymlinks (fs : FileSystem) (p : List String) : Option (List String) :=
  (resolvePathAux fs statFuel p).map (fun r => r.1)

/-- The children of the directory at relative path `relDir`, in tree order
(the tree is listed in lexical order, as `filepath.WalkDir` reads
directories). -/
def childrenOf (fs : FileSystem) (relDir : List String) : List (List String × FSKind) :=
  fs.tree.filter (fun e => !e.1.isEmpty && e.1.dropLast == relDir)

/-! ## The selection engine (`internal/files/reading.go`) -/

/-- Accumulator loop of `preprocessExcludePatterns`: skip empty patterns,
trim trailing separators, and when `root/cleanPattern` stats as an existing
directory append both `cleanPattern` and `cleanPattern + "/**"`, otherwise
append `cleanPattern` alone. -/
def preprocessExcludePatternsAux (fs : FileSystem) (root : List String) :
    List String → List String → List String
  | [], acc => acc
  | p :: rest, acc =>
    if p = "" then preprocessExcludePatternsAux fs root rest acc
    else
      preprocessExcludePatternsAux fs root rest
        (acc ++
          (if statAbs fs (joinPath root (trimTrailingSeps p)) = some true then
            [trimTrailingSeps p, trimTrailingSeps p ++ "/**"]
          else [trimTrailingSeps p]))

/-- `preprocessExcludePatterns(root, excludePatterns)` of `reading.go`. -/
def preprocessExcludePatterns (fs : FileSystem) (root : List String)
    (excludePatterns : List String) : List String :=
  preprocessExcludePatternsAux fs root excludePatterns []

/-- Accumulator loop of `collectExplicitFiles`: for each entry (modelled as
an already-absolute path, since `filepath.Abs` is the identity here), if
`os.Stat` succeeds append it to the output list and record it in the
explicit-path set; otherwise drop it silently. -/
def collectExplicitFilesAux (fs : FileSystem) :
    List (List String) → List (List String) → List (List String) →
    List (List String) × List (List String)
  | [], filePaths, explicitPaths => (filePaths, explicitPaths)
  | e :: rest, filePaths, explicitPaths =>
    if (statAbs fs e).isSome then
      collectExplicitFilesAux fs rest (filePaths ++ [e]) (explicitPaths ++ [e])
    else
      collectExplicitFilesAux fs rest filePaths explicitPaths

/-- `collectExplicitFiles(absRoot, explicitFiles)` of `reading.go`: returns
the seeded output list and the explicit-path set (as a list; the Go map is
only ever used for membership). -/
def collectExplicitFiles (fs : FileSystem) (explicitFiles : List (List String)) :
    List (List String) × List (List String) :=
  collectExplicitFilesAux fs explicitFiles [] []

/-- Does some explicit path lie strictly beneath the absolute directory
`absDir`?  Mirrors `strings.HasPrefix(explicit, absDir+string(os.PathSeparator))`
over segment paths. -/
def explicitBeneath (explicitPaths : List (List String)) (absDir : List String) : Bool :=
  explicitPaths.any (fun e => absDir.isPrefixOf e && decide (absDir.length < e.length))

/-- The `dirPath` loop of `isExcludedPath`, iterating over the nonempty
prefixes of the relative path from the longest (the path itself) to the
shortest (its topmost segment), stopping at `"."`.  The recursion runs over
the reversed segment list so each loop step is structural; the element
`x :: xs` stands for the prefix `(x :: xs).reverse`. -/
def isExcludedRev (absRoot : List String) (patterns : List String)
    (explicitPaths : List (List String)) : List String → Bool × Bool
  | [] => (false, false)
  | x :: xs =>
    match patterns.find? (fun pat => pathMatch pat (joinSlash (x :: xs).reverse)) with
    | some _ =>
      (true, explicitBeneath explicitPaths (absRoot ++ (x :: xs).reverse))
    | none => isExcludedRev absRoot patterns explicitPaths xs

/-- `isExcludedPath(absRoot, relPath, processedExcludePatterns, explicitPaths)`
of `reading.go`: walks from the path itself up through its parent
directories; on the first prefix matching an exclude pattern it returns
`excluded = true` together with whether that prefix has an explicit path
strictly beneath it; if no prefix matches it returns `(false, false)`. -/
def isExcludedPath (absRoot : List String) (patterns : List String)
    (explicitPaths : List (List String)) (relSegs : List String) : Bool × Bool :=
  isExcludedRev absRoot patterns explicitPaths relSegs.reverse

/-- `shouldIncludePath(relPath, includePatterns)` of `reading.go`: include
everything when no include patterns are given, otherwise require at least
one match. -/
def shouldIncludePath (relPath : String) (includePatterns : List String) : Bool :=
  if includePatterns.isEmpty then true
  else includePatterns.any (fun pat => pathMatch pat relPath)

/-- The `filepath.WalkDir` callback loop of `walkAndCollectPaths`, written
as a preorder depth-first worklist traversal: the worklist holds the entries
still to visit (children are pushed in front of the remaining siblings,
which is exactly `WalkDir`'s recursion order; pruning a directory simply
does not push its children, which is `filepath.SkipDir`).  For each entry:
already-seen paths (the pre-seeded explicit files) are skipped but still
descended into; an excluded entry that is not a parent of an explicit file
is dropped (with its whole subtree when it is a directory); an excluded
directory that is a parent of an explicit file is descended into without
being added; everything else is include-tested and appended when it passes.
Each step consumes one worklist entry and one unit of fuel; every tree entry
enters the worklist at most once, so `fuel = tree.length + 1` never runs
out. -/
def walkGo (fs : FileSystem) (includePatterns pex : List String)
    (explicitPaths : List (List String)) :
    Nat → List (List String × FSKind) → List (List String) → List (List String)
  | 0, _, acc => acc
  | _ + 1, [], acc => acc
  | fuel + 1, (rel, k) :: rest, acc =>
    if fs.rootPath ++ rel ∈ acc then
      walkGo fs includePatterns pex explicitPaths fuel
        (if k.isDir then childrenOf fs rel ++ rest else rest) acc
    else if (isExcludedPath fs.rootPath pex explicitPaths rel).1 &&
        !(isExcludedPath fs.rootPath pex explicitPaths rel).2 then
      walkGo fs includePatterns pex explicitPaths fuel rest acc
    else if k.isDir && (isExcludedPath fs.rootPath pex explicitPaths rel).1 &&
        (isExcludedPath fs.rootPath pex explicitPaths rel).2 then
      walkGo fs includePatterns pex explicitPaths fuel (childrenOf fs rel ++ rest) acc
    else
      walkGo fs includePatterns pex explicitPaths fuel
        (if k.isDir then childrenOf fs rel ++ rest else rest)
        (if shouldIncludePath (joinSlash rel) includePatterns then
          acc ++ [fs.rootPath ++ rel]
        else acc)

/-- `walkAndCollectPaths(absRoot, includePatterns, processedExcludePatterns,
explicitPaths, initialFiles)` of `reading.go`: seeds the accumulator with
the explicit files and walks the whole root tree (the root itself is
skipped: the walk starts at the root's children). -/
def walkAndCollectPaths (fs : FileSystem) (includePatterns pex : List String)
    (explicitPaths : List (List String)) (initialFiles : List (List String)) :
    List (List String) :=
  walkGo fs includePatterns pex explicitPaths (fs.tree.length + 1)
    (childrenOf fs []) initialFiles

/-- Is `d` one of the ancestor directories that the marking loop of
`filterEmptyDirectories` visits for a file `p`?  The loop starts at
`filepath.Dir(p)` and stops before `/`, i.e. it marks exactly the nonempty
strict segment-prefixes of `p`. -/
def isAncestorDir (d p : List String) : Bool :=
  !d.isEmpty && d.isPrefixOf p && decide (d.length < p.length)

/-- The `directoryHasIncludedFile` marking of `filterEmptyDirectories`:
directory `d` is marked exactly when some statable non-directory path in the
candidate list has `d` among its ancestor directories. -/
def dirHasIncludedFile (fs : FileSystem) (paths : List (List String))
    (d : List String) : Bool :=
  paths.any (fun p => statAbs fs p == some false && isAncestorDir d p)

/-- `filterEmptyDirectories(filePaths)` of `reading.go`: keeps every path
that cannot be stat'ed (conservative), every file, and exactly those
directories marked as having an included file beneath them.  (The `Abs`
normalisation loop is the identity here, since all collected paths are
already absolute, and the `pathSet` map built by the Go code is never
used.) -/
def filterEmptyDirectories (fs : FileSystem) (paths : List (List String)) :
    List (List String) :=
  paths.filter (fun p =>
    match statAbs fs p with
    | none => true
    | some true => dirHasIncludedFile fs paths p
    | some false => true)

/-- `GetAllFilePaths(root, includePatterns, excludePatterns, explicitFiles)`
of `reading.go` (final variant): absolutise the root (identity here),
preprocess the exclude patterns, seed with the explicit files, walk the
tree, and prune content-less directories. -/
def GetAllFilePaths (fs : FileSystem) (includePatterns excludePatterns : List String)
    (explicitFiles : List (List String)) : List (List String) :=
  filterEmptyDirectories fs
    (walkAndCollectPaths fs includePatterns
      (preprocessExcludePatterns fs fs.rootPath excludePatterns)
      (collectExplicitFiles fs explicitFiles).2
      (collectExplicitFiles fs explicitFiles).1)

/-! ## General lemmas about the engine -/

theorem trimTrailingSeps_append_slash (d : String) :
    trimTrailingSeps (d ++ "/") = trimTrailingSeps d := by
  unfold trimTrailingSeps
  have hdata : (d ++ "/").data = d.data ++ ['/'] := rfl
  rw [hdata, List.reverse_append]
  simp [List.dropWhile, isPathSep]

theorem append_slash_ne_empty (d : String) : d ++ "/" ≠ "" := by
  intro h
  have hdata : (d ++ "/").data = d.data ++ ['/'] := rfl
  rw [h] at hdata
  simp at hdata

theorem collectExplicitFilesAux_spec (fs : FileSystem) :
    ∀ (l fps eps : List (List String)),
      collectExplicitFilesAux fs l fps eps =
        (fps ++ l.filter (fun e => (statAbs fs e).isSome),
         eps ++ l.filter (fun e => (statAbs fs e).isSome)) := by
  intro l
  induction l with
  | nil => intro fps eps; simp [collectExplicitFilesAux]
  | cons e rest ih =>
    intro fps eps
    rw [collectExplicitFilesAux]
    by_cases h : (statAbs fs e).isSome
    · simp [h, ih, List.filter_cons]
    · simp [h, ih, List.filter_cons]

theorem collectExplicitFiles_eq (fs : FileSystem) (efs : List (List String)) :
    collectExplicitFiles fs efs =
      (efs.filter (fun e => (statAbs fs e).isSome),
       efs.filter (fun e => (statAbs fs e).isSome)) := by
  simp [collectExplicitFiles, collectExplicitFilesAux_spec]

theorem isExcludedPath_self_match (absRoot patterns : List String)
    (eps : List (List String)) (rel : List String) (hrel : rel ≠ [])
    (hsome : (patterns.find? (fun pat => pathMatch pat (joinSlash rel))).isSome) :
    isExcludedPath absRoot patterns eps rel =
      (true, explicitBeneath eps (absRoot ++ rel)) := by
  unfold isExcludedPath
  rcases hr : rel.reverse with _ | ⟨x, xs⟩
  · exact absurd (by simpa using congrArg List.reverse hr) hrel
  · have hback : (x :: xs).reverse = rel := by
      rw [← hr, List.reverse_reverse]
    rw [isExcludedRev, hback]
    rcases hfind : patterns.find? (fun pat => pathMatch pat (joinSlash rel)) with _ | q
    · rw [hfind] at hsome; simp at hsome
    · rfl

theorem isExcludedPath_fst_false (absRoot patterns : List String)
    (eps : List (List String)) (rel : List String) (hrel : rel ≠ [])
    (h : (isExcludedPath absRoot patterns eps rel).1 = false) :
    ∀ pat ∈ patterns, pathMatch pat (joinSlash rel) = false := by
  unfold isExcludedPath at h
  rcases hr : rel.reverse with _ | ⟨x, xs⟩
  · exact absurd (by simpa using congrArg List.reverse hr) hrel
  · have hback : (x :: xs).reverse = rel := by
      rw [← hr, List.reverse_reverse]
    rw [hr, isExcludedRev, hback] at h
    rcases hfind : patterns.find? (fun pat => pathMatch pat (joinSlash rel)) with _ | q
    · intro pat hpat
      have := List.find?_eq_none.mp hfind pat hpat
      simpa using this
    · rw [hfind] at h; simp at h

theorem childrenOf_fst_ne_nil (fs : FileSystem) (relDir : List String)
    (e : List String × FSKind) (he : e ∈ childrenOf fs relDir) : e.1 ≠ [] := by
  have h := (List.mem_filter.mp he).2
  intro hnil
  rw [hnil] at h
  simp at h

theorem walkGo_mono (fs : FileSystem) (incl pex : List String)
    (eps : List (List String)) :
    ∀ (fuel : Nat) (wl : List (List String × FSKind)) (acc : List (List String))
      (x : List String), x ∈ acc → x ∈ walkGo fs incl pex eps fuel wl acc := by
  intro fuel
  induction fuel with
  | zero => intro wl acc x hx; simpa [walkGo] using hx
  | succ n ih =>
    intro wl acc x hx
    rcases wl with _ | ⟨⟨rel, k⟩, rest⟩
    · simpa [walkGo] using hx
    · rw [walkGo]
      split
      · exact ih _ _ _ hx
      · split
        · exact ih _ _ _ hx
        · split
          · exact ih _ _ _ hx
          · by_cases hinc : shouldIncludePath (joinSlash rel) incl = true
            · rw [if_pos hinc]
              exact ih _ _ _ (List.mem_append_left _ hx)
            · rw [if_neg hinc]
              exact ih _ _ _ hx

theorem walkGo_mem (fs : FileSystem) (incl pex : List String)
    (eps : List (List String)) :
    ∀ (fuel : Nat) (wl : List (List String × FSKind)) (acc : List (List String))
      (x : List String),
      (∀ e ∈ wl, e.1 ≠ ([] : List String)) →
      x ∈ walkGo fs incl pex eps fuel wl acc →
      x ∈ acc ∨ ∃ rel, x = fs.rootPath ++ rel ∧ rel ≠ [] ∧
        shouldIncludePath (joinSlash rel) incl = true ∧
        ((isExcludedPath fs.rootPath pex eps rel).1 = false ∨
         (isExcludedPath fs.rootPath pex eps rel).2 = true) := by
  intro fuel
  induction fuel with
  | zero => intro wl acc x _ hx; simp [walkGo] at hx; exact Or.inl hx
  | succ n ih =>
    intro wl acc x hwl hx
    rcases wl with _ | ⟨⟨rel, k⟩, rest⟩
    · simp [walkGo] at hx; exact Or.inl hx
    · have hrel : rel ≠ [] := hwl (rel, k) (List.mem_cons_self _ _)
      have hrest : ∀ e ∈ rest, e.1 ≠ ([] : List String) := fun e he =>
        hwl e (List.mem_cons_of_mem _ he)
      have hch : ∀ e ∈ childrenOf fs rel ++ rest, e.1 ≠ ([] : List String) := by
        intro e he
        rcases List.mem_append.mp he with h | h
        · exact childrenOf_fst_ne_nil fs rel e h
        · exact hrest e h
      have hWL : ∀ e ∈ (if k.isDir then childrenOf fs rel ++ rest else rest),
          e.1 ≠ ([] : List String) := by
        split
        · exact hch
        · exact hrest
      rw [walkGo] at hx
      split at hx
      · exact ih _ _ _ hWL hx
      · split at hx
        · exact ih _ _ _ hrest hx
        · split at hx
          · exact ih _ _ _ hch hx
          · rename_i hseen hexcl hexcl2
            by_cases hinc : shouldIncludePath (joinSlash rel) incl = true
            · rw [if_pos hinc] at hx
              rcases ih _ _ _ hWL hx with h | h
              · rcases List.mem_append.mp h with h2 | h2
                · exact Or.inl h2
                · refine Or.inr ⟨rel, List.mem_singleton.mp h2, hrel, hinc, ?_⟩
                  simp only [Bool.and_eq_true, Bool.not_eq_true'] at hexcl
                  rcases hb : (isExcludedPath fs.rootPath pex eps rel).1 with _ | _
                  · exact Or.inl rfl
                  · rcases hb2 : (isExcludedPath fs.rootPath pex eps rel).2 with _ | _
                    · exact absurd ⟨hb, hb2⟩ hexcl
                    · exact Or.inr rfl
              · exact Or.inr h
            · rw [if_neg hinc] at hx
              exact ih _ _ _ hWL hx

theorem walkGo_nodup (fs : FileSystem) (incl pex : List String)
    (eps : List (List String)) :
    ∀ (fuel : Nat) (wl : List (List String × FSKind)) (acc : List (List String)),
      acc.Nodup → (walkGo fs incl pex eps fuel wl acc).Nodup := by
  intro fuel
  induction fuel with
  | zero => intro wl acc hacc; simpa [walkGo] using hacc
  | succ n ih =>
    intro wl acc hacc
    rcases wl with _ | ⟨⟨rel, k⟩, rest⟩
    · simpa [walkGo] using hacc
    · rw [walkGo]
      split
      · exact ih _ _ hacc
      · split
        · exact ih _ _ hacc
        · split
          · exact ih _ _ hacc
          · rename_i hseen hexcl hexcl2
            by_cases hinc : shouldIncludePath (joinSlash rel) incl = true
            · rw [if_pos hinc]
              refine ih _ _ ?_
              refine List.Nodup.append hacc (List.nodup_singleton _) ?_
              intro a ha hb
              rw [List.mem_singleton] at hb
              subst hb
              exact hseen ha
            · rw [if_neg hinc]
              exact ih _ _ hacc

theorem mem_filterEmptyDirectories_of_file (fs : FileSystem)
    (paths : List (List String)) (p : List String) (hm : p ∈ paths)
    (hf : statAbs fs p = some false) : p ∈ filterEmptyDirectories fs paths := by
  refine List.mem_filter.mpr ⟨hm, ?_⟩
  rw [hf]

theorem mem_of_mem_filterEmptyDirectories (fs : FileSystem)
    (paths : List (List String)) (p : List String)
    (h : p ∈ filterEmptyDirectories fs paths) : p ∈ paths :=
  (List.mem_filter.mp h).1

theorem dirHasIncludedFile_of_mem_dir (fs : FileSystem)
    (paths : List (List String)) (p : List String)
    (hm : p ∈ filterEmptyDirectories fs paths)
    (hd : statAbs fs p = some true) : dirHasIncludedFile fs paths p = true := by
  have h := (List.mem_filter.mp hm).2
  rw [hd] at h
  exact h

theorem exists_file_of_dirHasIncludedFile (fs : FileSystem)
    (paths : List (List String)) (d : List String)
    (h : dirHasIncludedFile fs paths d = true) :
    ∃ p ∈ paths, statAbs fs p = some false ∧ isAncestorDir d p = true := by
  rw [dirHasIncludedFile, List.any_eq_true] at h
  obtain ⟨p, hp, hcond⟩ := h
  rw [Bool.and_eq_true] at hcond
  exact ⟨p, hp, by simpa using hcond.1, hcond.2⟩

/-- Modelled from the spec (§4.1 Pattern Preprocessor): the effective
patterns one input pattern expands to — nothing for the empty pattern; for a
pattern whose trailing separators are trimmed and which then names an
existing directory under the root, both the trimmed pattern and the trimmed
pattern followed by `/**`; in every other case exactly the trimmed
pattern. -/
def preprocessSpecOne (fs : FileSystem) (root : List String) (pattern : String) :
    List String :=
  if pattern = "" then []
  else if statAbs fs (joinPath root (trimTrailingSeps pattern)) = some true then
    [trimTrailingSeps pattern, trimTrailingSeps pattern ++ "/**"]
  else [trimTrailingSeps pattern]

theorem preprocessExcludePatternsAux_spec (fs : FileSystem) (root : List String) :
    ∀ (l acc : List String),
      preprocessExcludePatternsAux fs root l acc =
        acc ++ l.flatMap (preprocessSpecOne fs root) := by
  intro l
  induction l with
  | nil => intro acc; simp [preprocessExcludePatternsAux]
  | cons p rest ih =>
    intro acc
    rw [preprocessExcludePatternsAux]
    by_cases hp : p = ""
    · simp [hp, ih, preprocessSpecOne]
    · by_cases hdir : statAbs fs (joinPath root (trimTrailingSeps p)) = some true
      · simp [hp, hdir, ih, preprocessSpecOne]
      · simp [hp, hdir, ih, preprocessSpecOne]

/-- Membership in the seeded explicit-file list, from membership in the
input list and a successful stat. -/
theorem mem_collectExplicitFiles_fst (fs : FileSystem) (efs : List (List String))
    (f : List String) (hf : f ∈ efs) (hstat : (statAbs fs f).isSome) :
    f ∈ (collectExplicitFiles fs efs).1 := by
  rw [collectExplicitFiles_eq]
  exact List.mem_filter.mpr ⟨hf, by simpa using hstat⟩

/-- The initial worklist of the walk consists of entries with nonempty
relative paths. -/
theorem rootChildren_fst_ne_nil (fs : FileSystem) :
    ∀ e ∈ childrenOf fs ([] : List String), e.1 ≠ ([] : List String) :=
  fun e he => childrenOf_fst_ne_nil fs [] e he

/-- Shared core of C1 and C10: an explicit file that stats as a regular
file is seeded before the walk, survives it (the walk only appends), and is
kept unconditionally by the directory pruner. -/
theorem explicit_seed_in_result (fs : FileSystem) (incl excl : List String)
    (efs : List (List String)) (f : List String)
    (hf : f ∈ efs) (hfile : statAbs fs f = some false) :
    f ∈ GetAllFilePaths fs incl excl efs := by
  unfold GetAllFilePaths walkAndCollectPaths
  refine mem_filterEmptyDirectories_of_file _ _ _ ?_ hfile
  exact walkGo_mono _ _ _ _ _ _ _ _
    (mem_collectExplicitFiles_fst fs efs f hf (by simp [hfile]))

theorem preprocessExcludePatterns_trailing_slash (fs : FileSystem)
    (root : List String) (d : String) (hd : d ≠ "") :
    preprocessExcludePatterns fs root [d] =
      preprocessExcludePatterns fs root [d ++ "/"] := by
  simp [preprocessExcludePatterns, preprocessExcludePatternsAux_spec,
    preprocessSpecOne, hd, append_slash_ne_empty d, trimTrailingSeps_append_slash]

/-! ## Concrete filesystems for witnesses and counterexamples -/

/-- Root `/tmp/w1` with directory `sub` containing `secret.txt`. -/
def fsW1 : FileSystem :=
  ⟨["tmp", "w1"], [(["sub"], FSKind.dir), (["sub", "secret.txt"], FSKind.file)], []⟩

/-- Root `/tmp/w2` with files `keep.go` and `note.md`. -/
def fsW2 : FileSystem :=
  ⟨["tmp", "w2"], [(["keep.go"], FSKind.file), (["note.md"], FSKind.file)], []⟩

/-- Root `/tmp/w3` with directory `a` containing `x.txt`. -/
def fsW3 : FileSystem :=
  ⟨["tmp", "w3"], [(["a"], FSKind.dir), (["a", "x.txt"], FSKind.file)], []⟩

/-- Root `/tmp/w4` with a single file `f.txt`. -/
def fsW4 : FileSystem :=
  ⟨["tmp", "w4"], [(["f.txt"], FSKind.file)], []⟩

/-- Root `/tmp/w6` with directory `dir` containing `file.txt`. -/
def fsW6 : FileSystem :=
  ⟨["tmp", "w6"], [(["dir"], FSKind.dir), (["dir", "file.txt"], FSKind.file)], []⟩

/-- Root `/tmp/w8` with file `a.txt`; `/out/x.txt` exists outside the
root. -/
def fsW8 : FileSystem :=
  ⟨["tmp", "w8"], [(["a.txt"], FSKind.file)], [(["out", "x.txt"], false)]⟩

/-- Root `/tmp/w10` with file `main.go`; `/etc/hosts` exists outside the
root. -/
def fsW10 : FileSystem :=
  ⟨["tmp", "w10"], [(["main.go"], FSKind.file)], [(["etc", "hosts"], false)]⟩

/-- Root `/tmp/c2` with a symbolic link `link` to the sibling directory
`real`, which contains `f.txt` (entries in lexical order, as `WalkDir`
visits them). -/
def fsC2x : FileSystem :=
  ⟨["tmp", "c2"],
   [(["link"], FSKind.symlink ["tmp", "c2", "real"]), (["real"], FSKind.dir),
    (["real", "f.txt"], FSKind.file)], []⟩

/-- Root `/tmp/c4` with directory `a` containing `b.txt`. -/
def fsC4x : FileSystem :=
  ⟨["tmp", "c4"], [(["a"], FSKind.dir), (["a", "b.txt"], FSKind.file)], []⟩

/-- Root `/tmp/c7` with a file literally named `build` and a sibling
directory `build_dir` containing `file.txt` (the scenario of
`TestGetAllFilePathsExcludeFileVsDirectory`). -/
def fsC7 : FileSystem :=
  ⟨["tmp", "c7"],
   [(["build"], FSKind.file), (["build_dir"], FSKind.dir),
    (["build_dir", "file.txt"], FSKind.file)], []⟩

/-- Root `/tmp/c8` with a symbolic link `link` to the sibling file
`real.txt`. -/
def fsC8x : FileSystem :=
  ⟨["tmp", "c8"],
   [(["link"], FSKind.symlink ["tmp", "c8", "real.txt"]),
    (["real.txt"], FSKind.file)], []⟩

/-- Root `/tmp/c9` with a single empty directory `d`. -/
def fsC9x : FileSystem := ⟨["tmp", "c9"], [(["d"], FSKind.dir)], []⟩

/-! ## The claims -/

/-- C1: for every file `f` in the explicit set that exists on disk (stats
as a regular file), `GetAllFilePaths` returns a result containing `f`, no
matter which include or exclude patterns are in force and even when `f` or
any of its ancestor directories matches an exclude pattern: the explicit
file is pre-seeded and retained. -/
theorem explicitFileAlwaysRetained (fs : FileSystem) (incl excl : List String)
    (efs : List (List String)) (f : List String)
    (hf : f ∈ efs) (hfile : statAbs fs f = some false) :
    f ∈ GetAllFilePaths fs incl excl efs :=
  explicit_seed_in_result fs incl excl efs f hf hfile

/-- Witness for C1: the explicit file `/tmp/w1/sub/secret.txt`, buried in
the excluded directory `sub`, is in the result. -/
theorem explicitFileAlwaysRetained_witness :
    ["tmp", "w1", "sub", "secret.txt"] ∈
        ([["tmp", "w1", "sub", "secret.txt"]] : List (List String)) ∧
    statAbs fsW1 ["tmp", "w1", "sub", "secret.txt"] = some false ∧
    ["tmp", "w1", "sub", "secret.txt"] ∈
      GetAllFilePaths fsW1 [] ["sub"] [["tmp", "w1", "sub", "secret.txt"]] :=
  ⟨by decide, by decide,
   explicitFileAlwaysRetained fsW1 [] ["sub"] [["tmp", "w1", "sub", "secret.txt"]]
     ["tmp", "w1", "sub", "secret.txt"] (by decide) (by decide)⟩

/-- C2 counterexample: the claim "every path under root matching an include
pattern and an effective exclude pattern, and not in the explicit set, is
absent from the result" fails.  In `/tmp/c2`, `link` is a symbolic link to
the directory `real`, the explicit file is spelled through the link
(`/tmp/c2/link/f.txt`), and the exclude pattern is `link`: the path
`/tmp/c2/link` matches the include pattern `**` and the effective exclude
pattern `link`, is not in the explicit set, and yet appears in the result —
`WalkDir` reports the link as a non-directory entry, so the excluded entry
with an explicit file beneath its spelling falls through to the include
check and is appended. -/
theorem excludeWinsOverInclude_cex :
    "link" ∈ preprocessExcludePatterns fsC2x fsC2x.rootPath ["link"] ∧
    pathMatch "link" (joinSlash ["link"]) = true ∧
    pathMatch "**" (joinSlash ["link"]) = true ∧
    ["tmp", "c2", "link"] ∉
      (collectExplicitFiles fsC2x [["tmp", "c2", "link", "f.txt"]]).2 ∧
    ["tmp", "c2", "link"] ∈
      GetAllFilePaths fsC2x ["**"] ["link"] [["tmp", "c2", "link", "f.txt"]] := by
  decide

/-- C2 (amended): a path under root that passes the include test, itself
matches an effective exclude pattern, is not in the explicit set, and has
no explicit file strictly beneath its spelling, is absent from the result:
exclude wins over include, overridden only by explicit inclusion — or by an
explicit file lying beneath the path's own spelling (which can happen when
the path is a symbolic link to a directory holding an explicit file). -/
theorem excludeWinsOverInclude_amended (fs : FileSystem)
    (incl excl : List String) (efs : List (List String)) (rel : List String)
    (pat : String) (hrel : rel ≠ [])
    (hpat : pat ∈ preprocessExcludePatterns fs fs.rootPath excl)
    (hmatch : pathMatch pat (joinSlash rel) = true)
    (hinc : shouldIncludePath (joinSlash rel) incl = true)
    (hnexp : fs.rootPath ++ rel ∉ (collectExplicitFiles fs efs).2)
    (hnob : explicitBeneath (collectExplicitFiles fs efs).2 (fs.rootPath ++ rel) = false) :
    fs.rootPath ++ rel ∉ GetAllFilePaths fs incl excl efs := by
  intro hmem
  unfold GetAllFilePaths walkAndCollectPaths at hmem
  have hcoll := mem_of_mem_filterEmptyDirectories _ _ _ hmem
  rcases walkGo_mem _ _ _ _ _ _ _ _ (rootChildren_fst_ne_nil fs) hcoll with
    h | ⟨rel2, heq, hrel2, hinc2, hdisj⟩
  · apply hnexp
    rw [collectExplicitFiles_eq] at h ⊢
    exact h
  · have hr : rel2 = rel := (List.append_cancel_left heq.symm)
    subst hr
    have hex := isExcludedPath_self_match fs.rootPath
      (preprocessExcludePatterns fs fs.rootPath excl)
      (collectExplicitFiles fs efs).2 rel2 hrel
      (List.find?_isSome.mpr ⟨pat, hpat, hmatch⟩)
    rcases hdisj with h1 | h2
    · rw [hex] at h1
      simp at h1
    · rw [hex] at h2
      simp only at h2
      rw [hnob] at h2
      simp at h2

/-- Witness for the amended C2: `note.md` in `/tmp/w2` matches the include
pattern `**` and the exclude pattern `*.md`, is not explicit, has nothing
explicit beneath it, and is indeed absent from the result. -/
theorem excludeWinsOverInclude_amended_witness :
    (["note.md"] : List String) ≠ [] ∧
    "*.md" ∈ preprocessExcludePatterns fsW2 fsW2.rootPath ["*.md"] ∧
    pathMatch "*.md" (joinSlash ["note.md"]) = true ∧
    shouldIncludePath (joinSlash ["note.md"]) ["**"] = true ∧
    fsW2.rootPath ++ ["note.md"] ∉ (collectExplicitFiles fsW2 []).2 ∧
    explicitBeneath (collectExplicitFiles fsW2 []).2 (fsW2.rootPath ++ ["note.md"]) = false ∧
    fsW2.rootPath ++ ["note.md"] ∉ GetAllFilePaths fsW2 ["**"] ["*.md"] [] :=
  ⟨by decide, by decide, by decide, by decide, by decide, by decide,
   excludeWinsOverInclude_amended fsW2 ["**"] ["*.md"] [] ["note.md"] "*.md"
     (by decide) (by decide) (by decide) (by decide) (by decide) (by decide)⟩

/-- C3: every directory `d` in the final result of `GetAllFilePaths` has at
least one file `f` in the result with `d` an ancestor of `f`: the directory
pruner keeps a directory only when some retained statable file lies
beneath it, and files are kept unconditionally, so the witness file is
itself in the result. -/
theorem noDanglingDirectories (fs : FileSystem) (incl excl : List String)
    (efs : List (List String)) (d : List String)
    (hd : d ∈ GetAllFilePaths fs incl excl efs)
    (hdir : statAbs fs d = some true) :
    ∃ f ∈ GetAllFilePaths fs incl excl efs,
      statAbs fs f = some false ∧ isAncestorDir d f = true := by
  unfold GetAllFilePaths at hd ⊢
  have hmark := dirHasIncludedFile_of_mem_dir _ _ _ hd hdir
  obtain ⟨p, hp, hpf, hanc⟩ := exists_file_of_dirHasIncludedFile _ _ _ hmark
  exact ⟨p, mem_filterEmptyDirectories_of_file _ _ _ hp hpf, hpf, hanc⟩

/-- Witness for C3: the directory `/tmp/w3/a` is in the result and indeed
has a retained file beneath it. -/
theorem noDanglingDirectories_witness :
    ["tmp", "w3", "a"] ∈ GetAllFilePaths fsW3 [] [] [] ∧
    statAbs fsW3 ["tmp", "w3", "a"] = some true ∧
    ∃ f ∈ GetAllFilePaths fsW3 [] [] [],
      statAbs fsW3 f = some false ∧ isAncestorDir ["tmp", "w3", "a"] f = true :=
  ⟨by decide, by decide,
   noDanglingDirectories fsW3 [] [] [] ["tmp", "w3", "a"] (by decide) (by decide)⟩

/-- C4 counterexample: the claim that for every retained file every
ancestor directory strictly below root is present in the result fails.
In `/tmp/c4` with include pattern `**/*.txt`, the file `a/b.txt` is
retained but its parent directory `a` does not match the include pattern
and is therefore absent. -/
theorem resultSetShape_cex :
    ["tmp", "c4", "a", "b.txt"] ∈ GetAllFilePaths fsC4x ["**/*.txt"] [] [] ∧
    statAbs fsC4x ["tmp", "c4", "a"] = some true ∧
    ["tmp", "c4", "a"] ∉ GetAllFilePaths fsC4x ["**/*.txt"] [] [] := by
  decide

/-- C4 (amended): when the explicit-file entries resolve to pairwise
distinct absolute paths (so that the seeded list is duplicate-free), the
result of `GetAllFilePaths` is duplicate-free; it consists of the retained
files and of directories that lead to retained files, but an ancestor
directory of a retained file may be absent (e.g. when it fails the include
patterns). -/
theorem resultSetShape_amended (fs : FileSystem) (incl excl : List String)
    (efs : List (List String))
    (h : ((collectExplicitFiles fs efs).1).Nodup) :
    (GetAllFilePaths fs incl excl efs).Nodup := by
  unfold GetAllFilePaths walkAndCollectPaths
  exact List.Nodup.filter _ (walkGo_nodup _ _ _ _ _ _ _ h)

/-- Witness for the amended C4: with one explicit file the seed is
duplicate-free and so is the result. -/
theorem resultSetShape_amended_witness :
    ((collectExplicitFiles fsW4 [["tmp", "w4", "f.txt"]]).1).Nodup ∧
    (GetAllFilePaths fsW4 [] [] [["tmp", "w4", "f.txt"]]).Nodup :=
  ⟨by decide, resultSetShape_amended fsW4 [] [] [["tmp", "w4", "f.txt"]] (by decide)⟩

/-- C5: `preprocessExcludePatterns` maps each input pattern independently:
an empty pattern contributes nothing; otherwise trailing separators are
trimmed and, when the root joined with the trimmed pattern stats as an
existing directory, exactly the trimmed pattern and the trimmed pattern
followed by `/**` are emitted, while in every other case exactly the
trimmed pattern is emitted unchanged. -/
theorem preprocessPatternsCharacterisation (fs : FileSystem) (root : List String)
    (ps : List String) :
    preprocessExcludePatterns fs root ps = ps.flatMap (preprocessSpecOne fs root) := by
  simp [preprocessExcludePatterns, preprocessExcludePatternsAux_spec]

/-- C6: for every filesystem, include patterns, explicit files and nonempty
directory name `d`, excluding `d` and excluding `d ++ "/"` produce
identical results: trailing separators are trimmed before any other
processing, so both spellings yield the same effective patterns. -/
theorem trailingSlashEquivalence (fs : FileSystem) (incl : List String)
    (efs : List (List String)) (d : String) (hd : d ≠ "") :
    GetAllFilePaths fs incl [d] efs = GetAllFilePaths fs incl [d ++ "/"] efs := by
  unfold GetAllFilePaths
  rw [preprocessExcludePatterns_trailing_slash fs fs.rootPath d hd]

/-- Witness for C6: excluding `dir` and `dir/` in `/tmp/w6` give the same
result. -/
theorem trailingSlashEquivalence_witness :
    ("dir" : String) ≠ "" ∧
    GetAllFilePaths fsW6 [] ["dir"] [] = GetAllFilePaths fsW6 [] ["dir" ++ "/"] [] :=
  ⟨by decide, trailingSlashEquivalence fsW6 [] [] "dir" (by decide)⟩

/-- C7: with a file literally named `build` and a sibling directory
`build_dir` containing a file, excluding `build` omits the file `build`
but keeps `build_dir` and its contents: the matcher does exact
path-segment matching, not substring or prefix matching. -/
theorem fileVsDirectoryNameCollision :
    GetAllFilePaths fsC7 [] ["build"] [] =
      [["tmp", "c7", "build_dir"], ["tmp", "c7", "build_dir", "file.txt"]] ∧
    ["tmp", "c7", "build"] ∉ GetAllFilePaths fsC7 [] ["build"] [] := by
  decide

/-- C8 counterexample: the claim that every returned path is
symlink-resolved fails.  The final `GetAllFilePaths` only makes the root
absolute — it never calls `filepath.EvalSymlinks` — so in `/tmp/c8`, where
`link` is a symbolic link to `real.txt`, the result contains the
unresolved spelling `/tmp/c8/link`, whose canonical form is the different
path `/tmp/c8/real.txt`. -/
theorem canonicalPaths_cex :
    ["tmp", "c8", "link"] ∈ GetAllFilePaths fsC8x [] [] [] ∧
    evalSymlinks fsC8x ["tmp", "c8", "link"] = some ["tmp", "c8", "real.txt"] ∧
    ["tmp", "c8", "link"] ≠ ["tmp", "c8", "real.txt"] := by
  decide

/-- C8 (amended): `GetAllFilePaths` resolves the root to an absolute path
before traversal but performs no symlink resolution; every path it returns
is absolute — it lies under the absolutised root or is one of the explicit
files' absolute paths — but a symlinked spelling can appear unresolved in
the result. -/
theorem canonicalPaths_amended (fs : FileSystem) (incl excl : List String)
    (efs : List (List String)) (p : List String)
    (hp : p ∈ GetAllFilePaths fs incl excl efs) :
    fs.rootPath.isPrefixOf p = true ∨ p ∈ efs := by
  unfold GetAllFilePaths walkAndCollectPaths at hp
  have hcoll := mem_of_mem_filterEmptyDirectories _ _ _ hp
  rcases walkGo_mem _ _ _ _ _ _ _ _ (rootChildren_fst_ne_nil fs) hcoll with
    h | ⟨rel, heq, _, _, _⟩
  · right
    rw [collectExplicitFiles_eq] at h
    exact List.mem_of_mem_filter h
  · left
    rw [heq]
    exact List.isPrefixOf_iff_prefix.mpr (List.prefix_append _ _)

/-- Witness for the amended C8: in `/tmp/w8` the explicit outside file
`/out/x.txt` is in the result, and the dichotomy holds for it. -/
theorem canonicalPaths_amended_witness :
    ["out", "x.txt"] ∈ GetAllFilePaths fsW8 [] [] [["out", "x.txt"]] ∧
    (fsW8.rootPath.isPrefixOf ["out", "x.txt"] = true ∨
     ["out", "x.txt"] ∈ ([["out", "x.txt"]] : List (List String))) :=
  ⟨by decide,
   canonicalPaths_amended fsW8 [] [] [["out", "x.txt"]] ["out", "x.txt"] (by decide)⟩

/-- C9 counterexample: the claim that an explicit entry naming a directory
is not added to the resolver's output fails: `collectExplicitFiles` only
checks that `os.Stat` succeeds, so the existing directory `/tmp/c9/d`
passed as an explicit file is added to its output. -/
theorem explicitResolver_cex :
    (collectExplicitFiles fsC9x [["tmp", "c9", "d"]]).1 = [["tmp", "c9", "d"]] ∧
    statAbs fsC9x ["tmp", "c9", "d"] = some true := by
  decide

/-- C9 (amended): the output of the explicit-file resolver is exactly the
absolute paths of those `explicitFiles` entries that exist on disk — as a
file or as a directory: a missing entry is silently dropped without failing
the call, but an entry naming an existing directory is added (content-less
explicit directories are only removed later, by the directory pruner). -/
theorem explicitResolverCharacterisation (fs : FileSystem)
    (efs : List (List String)) :
    (collectExplicitFiles fs efs).1 =
      efs.filter (fun e => (statAbs fs e).isSome) := by
  rw [collectExplicitFiles_eq]

/-- C10: an explicit entry that exists on disk as a file is included in the
result of `GetAllFilePaths` even when its path lies entirely outside the
root tree: no containment check against the root is performed on explicit
files. -/
theorem explicitOutsideRootRetained (fs : FileSystem) (incl excl : List String)
    (efs : List (List String)) (f : List String)
    (hf : f ∈ efs) (hfile : statAbs fs f = some false)
    (hout : fs.rootPath.isPrefixOf f = false) :
    f ∈ GetAllFilePaths fs incl excl efs :=
  explicit_seed_in_result fs incl excl efs f hf hfile

/-- Witness for C10: `/etc/hosts`, outside the root `/tmp/w10`, is in the
result when passed explicitly. -/
theorem explicitOutsideRootRetained_witness :
    ["etc", "hosts"] ∈ ([["etc", "hosts"]] : List (List String)) ∧
    statAbs fsW10 ["etc", "hosts"] = some false ∧
    fsW10.rootPath.isPrefixOf ["etc", "hosts"] = false ∧
    ["etc", "hosts"] ∈ GetAllFilePaths fsW10 [] [] [["etc", "hosts"]] :=
  ⟨by decide, by decide, by decide,
   explicitOutsideRootRetained fsW10 [] [] [["etc", "hosts"]] ["etc", "hosts"]
     (by decide) (by decide) (by decide)⟩
